import Mathlib

/-!
Formal model of the asynchronous advantage actor-critic trainer `a3c.py`.

The pure fragments of the program are embedded as executable Lean
definitions over ℚ and ℕ: reward clipping, the backward return recurrence
of `Agent.run`, the learning-rate schedule, the frame-skip action policy of
`Agent.get_action`, and the rollout-collection loop of
`actor_learner_thread`.  The neural network, the categorical sampler and
the environment are abstracted as function parameters; machine floats are
modelled by rationals.
-/

/-- Constant `INITIAL_LEARNING_RATE = 0.0007` (a3c.py line 19). -/
def INITIAL_LEARNING_RATE : ℚ := 7 / 10000

/-- Constant `GAMMA = 0.99`, the discount factor (line 24). -/
def GAMMA : ℚ := 99 / 100

/-- Constant `ACTION_INTERVAL = 4` (line 23). -/
def ACTION_INTERVAL : ℕ := 4

/-- Constant `GLOBAL_T_MAX = 5000000` (line 27). -/
def GLOBAL_T_MAX : ℕ := 5000000

/-- Constant `THREAD_T_MAX = 5` (line 28). -/
def THREAD_T_MAX : ℕ := 5

/-- Constant `SAVE_INTERVAL = 500000` (line 29). -/
def SAVE_INTERVAL : ℕ := 500000

/-- Constant `lr_step = INITIAL_LEARNING_RATE / GLOBAL_T_MAX` (line 182). -/
def lr_step : ℚ := INITIAL_LEARNING_RATE / (GLOBAL_T_MAX : ℚ)

/-- Function `np.clip(x, lo, hi)` as used at line 216: values below `lo`
are raised to `lo`, values above `hi` are lowered to `hi`, others pass
unchanged. -/
def np_clip (x lo hi : ℚ) : ℚ := if x < lo then lo else if hi < x then hi else x

/-- The process-shared mutable variables declared `global` at line 178 of
`actor_learner_thread`. -/
structure Globals where
  global_t : ℕ
  learning_rate : ℚ
  global_episode : ℕ
  deriving DecidableEq

/-- The first statements of `actor_learner_thread` (lines 179, 181, 187):
unconditional assignments to the process-shared globals, executed at worker
entry, before the `time.sleep(3 * thread_id)` delay at line 191. -/
def thread_init (_g : Globals) : Globals :=
  { global_t := 0, learning_rate := INITIAL_LEARNING_RATE, global_episode := 0 }

/-- Delay `time.sleep(3 * thread_id)` at line 191: the seconds each worker
waits after the shared-global assignments above. -/
def thread_delay_seconds (thread_id : ℕ) : ℕ := 3 * thread_id

/-- The two operations workers perform on the shared `learning_rate`:
the thread-entry initialization (line 181) and the per-step annealing
decrement floored at zero (lines 229-231). -/
inductive SharedLrOp
  | tinit
  | decr
  deriving DecidableEq

/-- Effect of one shared-learning-rate operation (lines 181 and 229-231). -/
def lr_apply (step : ℚ) : SharedLrOp → ℚ → ℚ
  | .tinit, _ => INITIAL_LEARNING_RATE
  | .decr, lr => if lr - step < 0 then 0 else lr - step

/-- The shared `learning_rate` after `n` consecutive decrements starting
from `INITIAL_LEARNING_RATE`, with the step computed at line 182. -/
def lr_after_decrements : ℕ → ℚ
  | 0 => INITIAL_LEARNING_RATE
  | n + 1 => lr_apply lr_step .decr (lr_after_decrements n)

/-- Bootstrap value of `Agent.run` (lines 122-125): `0` when the segment
ended on a terminal step, otherwise the baseline value `v` predicted at the
final (post-segment) state. -/
def run_bootstrap (terminal : Bool) (v : ℚ) : ℚ := if terminal then 0 else v

/-- The backward loop of `Agent.run` (lines 129-131), fed the reversed
reward list: the accumulator is updated `r := reward + GAMMA * r` and each
intermediate value is emitted, producing `r_batch` positions n-1 down
to 0. -/
def returns_go (r : ℚ) : List ℚ → List ℚ
  | [] => []
  | x :: xs => (x + GAMMA * r) :: returns_go (x + GAMMA * r) xs

/-- Batch `r_batch` as computed by `Agent.run` (lines 121-131) from the
segment's reward list, the terminal flag and the value prediction `v` at
the post-segment state. -/
def agent_run_returns (terminal : Bool) (v : ℚ) (reward_batch : List ℚ) : List ℚ :=
  (returns_go (run_bootstrap terminal v) reward_batch.reverse).reverse

/-- Reference form of the same recurrence, recursing head-first:
`R_i = r_i + GAMMA * R_(i+1)` and `R_(n-1) = r_(n-1) + GAMMA * b`. -/
def returns_rec (b : ℚ) : List ℚ → List ℚ
  | [] => []
  | x :: xs => (x + GAMMA * (returns_rec b xs).headD b) :: returns_rec b xs

/-- Value `np.finfo(np.float32).epsneg`, the tiny quantity subtracted at
line 113; for float32 this is 2 ^ (-24). -/
def epsneg : ℚ := 1 / 2 ^ 24

/-- The probability adjustment of line 113: `probs - epsneg` subtracts
`epsneg` from every component of the predicted probability vector. -/
def adjust_probs (probs : List ℚ) : List ℚ := probs.map (fun p => p - epsneg)

/-- Inverse-cdf selection of one category at a uniform sample `u`, the
sampling part of `np.random.multinomial(1, pvals)`. -/
def pick_index : List ℚ → ℚ → ℕ
  | [], _ => 0
  | p :: ps, u => if u < p then 0 else pick_index ps (u - p) + 1

/-- Model of `np.random.multinomial(1, pvals)` for a single draw: numpy
raises `ValueError` when the mass of all but the last component exceeds 1
(the failure mode quoted in the comment at line 112); otherwise it returns
a sampled category. -/
def multinomial_draw (pvals : List ℚ) (u : ℚ) : Except String ℕ :=
  if 1 < pvals.dropLast.sum then Except.error "ValueError" else Except.ok (pick_index pvals u)

/-- The sampling branch of `Agent.get_action` (lines 109-117): subtract
`epsneg` from the predicted probabilities, then draw. -/
def get_action_sample (probs : List ℚ) (u : ℚ) : Except String ℕ :=
  multinomial_draw (adjust_probs probs) u

/-- Model of `Agent.get_action` (lines 106-119) at the probability level:
resample on an `ACTION_INTERVAL` boundary, otherwise return the repeated
action. -/
def get_action_model (probs : List ℚ) (u : ℚ) (rep t : ℕ) : Except String ℕ :=
  if t % ACTION_INTERVAL = 0 then get_action_sample probs u else Except.ok rep

/-- Configuration of the training loop.  The source fixes `TH`, `GMAX` and
`SAVE` to `THREAD_T_MAX`, `GLOBAL_T_MAX` and `SAVE_INTERVAL`; the claims
concern the mechanism, so the loop model is parameterized over them. -/
structure Config where
  TH : ℕ
  GMAX : ℕ
  SAVE : ℕ
  deriving DecidableEq

/-- The source's own configuration values (lines 27-29). -/
def defaultConfig : Config :=
  { TH := THREAD_T_MAX, GMAX := GLOBAL_T_MAX, SAVE := SAVE_INTERVAL }

/-- The learning-rate step of line 182 for a given configuration. -/
def cfg_lr_step (cfg : Config) : ℚ := INITIAL_LEARNING_RATE / (cfg.GMAX : ℚ)

/-- External collaborators of one worker, abstracted as functions: `env`
gives the (reward, terminal) result of the environment step taken at
thread-local time `t` (a deterministic stub, as in the claims' scenarios);
`sampler` is the categorical draw of `get_action` at a given state and
time; `nextState` is the frame-stack shift of line 220; `initState` the
initial state built at the reset of episode `e`.  States are abstract
identifiers. -/
structure WorkerParams where
  env : ℕ → ℚ × Bool
  sampler : ℕ → ℕ → ℕ
  nextState : ℕ → ℕ
  initState : ℕ → ℕ

/-- The mutable variables of one worker's loop (`actor_learner_thread`
locals plus the shared counters it touches).  `epStep` is spec-side
instrumentation: the within-episode step index, which the code itself does
not maintain (`t` is thread-local and never reset between episodes). -/
structure LoopState where
  t : ℕ
  global_t : ℕ
  learning_rate : ℚ
  terminal : Bool
  state : ℕ
  repeated_action : ℕ
  episode : ℕ
  epStep : ℕ
  deriving DecidableEq

/-- Trace record of one environment step: thread-local time `t`, the
spec-side within-episode index, whether `get_action` resampled (the
condition of line 109 as evaluated at this step), and the action taken. -/
structure StepRec where
  t : ℕ
  epStep : ℕ
  resampled : Bool
  action : ℕ
  deriving DecidableEq

/-- Trace record of one call to `Agent.run` (line 235): the three batches
handed over, the terminal flag (which selects the zero bootstrap at lines
122-125) and the post-segment state at which the baseline would be
predicted. -/
structure UpdateRec where
  states : List ℕ
  actions : List ℕ
  rewards : List ℚ
  terminal : Bool
  bootstrapState : ℕ
  deriving DecidableEq

/-- Model of `Agent.get_action` (lines 106-119) with the categorical draw
abstracted: on an `ACTION_INTERVAL` boundary of the thread-local time the
action is resampled and remembered, otherwise the remembered action is
returned; the result pairs the action taken with the new
`repeated_action`. -/
def agent_get_action (sampler : ℕ → ℕ → ℕ) (state rep t : ℕ) : ℕ × ℕ :=
  if t % ACTION_INTERVAL = 0 then (sampler state t, sampler state t) else (rep, rep)

/-- Accumulator of the collecting loop: the worker variables plus the three
batch lists (cleared at lines 203-205 before each segment) and the global
step trace. -/
structure SegState where
  s : LoopState
  state_batch : List ℕ
  action_batch : List ℕ
  reward_batch : List ℚ
  steps : List StepRec
  deriving DecidableEq

/-- One iteration of the collecting loop body (lines 208-233): select the
action, step the environment, append to the three batches, clip the
reward, advance `t` and `global_t`, anneal the learning rate with floor at
zero, and shift to the next state. -/
def collect_step (P : WorkerParams) (cfg : Config) (a : SegState) : SegState :=
  let act := agent_get_action P.sampler a.s.state a.s.repeated_action a.s.t
  let er := P.env a.s.t
  let clipped := np_clip er.1 (-1) 1
  let lr1 := a.s.learning_rate - cfg_lr_step cfg
  { s := { t := a.s.t + 1
           global_t := a.s.global_t + 1
           learning_rate := if lr1 < 0 then 0 else lr1
           terminal := er.2
           state := P.nextState a.s.state
           repeated_action := act.2
           episode := a.s.episode
           epStep := a.s.epStep + 1 }
    state_batch := a.state_batch ++ [a.s.state]
    action_batch := a.action_batch ++ [act.1]
    reward_batch := a.reward_batch ++ [clipped]
    steps := a.steps ++ [{ t := a.s.t, epStep := a.s.epStep,
                           resampled := a.s.t % ACTION_INTERVAL == 0, action := act.1 }] }

/-- The collecting loop (line 207): `while not (terminal or (t - t_start)
== THREAD_T_MAX)`.  The fuel argument only bounds the recursion; the
caller passes `fuel = cfg.TH`, so the fuel equals `TH - (t - t_start)`
throughout and never runs out before the loop condition stops the loop. -/
def collect_loop (P : WorkerParams) (cfg : Config) (t_start : ℕ) : ℕ → SegState → SegState
  | 0, a => a
  | fuel + 1, a =>
    if a.s.terminal || (a.s.t - t_start == cfg.TH) then a
    else collect_loop P cfg t_start fuel (collect_step P cfg a)

/-- The terminal branch of the outer loop (lines 242-261): counters of the
finished episode are reset, the environment is reset and a fresh initial
state is built.  The thread-local `t` and the `repeated_action` are NOT
reset. -/
def episode_reset (P : WorkerParams) (s : LoopState) : LoopState :=
  { s with terminal := false
           episode := s.episode + 1
           state := P.initState (s.episode + 1)
           epStep := 0 }

/-- Full worker trace: the loop variables, the updates pushed to the
shared network, the checkpoint saves triggered, and the per-step trace. -/
structure WState where
  s : LoopState
  updates : List UpdateRec
  saves : List ℕ
  steps : List StepRec
  deriving DecidableEq

/-- One iteration of the outer training loop (lines 201-261): collect a
segment into fresh batches, call `Agent.run` (recorded as an `UpdateRec`),
check the save trigger `global_t % SAVE_INTERVAL == 0` (line 239), and on
terminal run the episode reset. -/
def outer_body (P : WorkerParams) (cfg : Config) (w : WState) : WState :=
  let a := collect_loop P cfg w.s.t cfg.TH
    { s := w.s, state_batch := [], action_batch := [], reward_batch := [], steps := w.steps }
  let upd : UpdateRec :=
    { states := a.state_batch, actions := a.action_batch, rewards := a.reward_batch,
      terminal := a.s.terminal, bootstrapState := a.s.state }
  let saves := if a.s.global_t % cfg.SAVE == 0 then w.saves ++ [a.s.global_t] else w.saves
  let s2 := if a.s.terminal then episode_reset P a.s else a.s
  { s := s2, updates := w.updates ++ [upd], saves := saves, steps := a.steps }

/-- The outer while loop (line 200): `while global_t < GLOBAL_T_MAX`,
bounded by fuel. -/
def outer_loop (P : WorkerParams) (cfg : Config) : ℕ → WState → WState
  | 0, w => w
  | fuel + 1, w =>
    if w.s.global_t < cfg.GMAX then outer_loop P cfg fuel (outer_body P cfg w) else w

/-- Worker state right after the initialization of lines 179-198: `t = 0`,
the shared counters as set by `thread_init`, `terminal = False` (line 193),
`repeated_action = 0` (line 39), and the initial state of episode 0. -/
def worker_start (P : WorkerParams) : WState :=
  { s := { t := 0, global_t := 0, learning_rate := INITIAL_LEARNING_RATE,
           terminal := false, state := P.initState 0, repeated_action := 0,
           episode := 0, epStep := 0 }
    updates := [], saves := [], steps := [] }

/-- Stub environment of the C8 scenario: terminal = false on the first five
steps, terminal = true on the sixth, reward 1 throughout. -/
def env_c8 : WorkerParams :=
  { env := fun t => (1, t == 5), sampler := fun _ t => t + 100,
    nextState := fun s => s + 1, initState := fun e => 1000 * e }

/-- The C8 configuration: THREAD_T_MAX = 5 and a budget that covers exactly
the six steps of the single scenario episode. -/
def cfg_c8 : Config := { TH := 5, GMAX := 6, SAVE := SAVE_INTERVAL }

/-- The C8 scenario run: one worker over the six-step episode. -/
def w_c8 : WState := outer_loop env_c8 cfg_c8 10 (worker_start env_c8)

/-- Placeholder update record used as `getD` default in trace lookups. -/
def noUpdate : UpdateRec :=
  { states := [], actions := [], rewards := [], terminal := false, bootstrapState := 0 }

/-- Placeholder step record used as `getD` default in trace lookups. -/
def noStep : StepRec := { t := 0, epStep := 0, resampled := false, action := 0 }

/-- Stub environment for the C4 counterexample: the first episode ends on
its fifth step (terminal at thread time t = 4), so the second episode
starts at thread time t = 5, which is not a multiple of ACTION_INTERVAL. -/
def env_c4 : WorkerParams :=
  { env := fun t => (1, t == 4), sampler := fun _ t => t + 100,
    nextState := fun s => s + 1, initState := fun e => 1000 * e }

/-- Configuration for the C4 counterexample. -/
def cfg_c4 : Config := { TH := 5, GMAX := 6, SAVE := SAVE_INTERVAL }

/-- The C4 counterexample run. -/
def w_c4 : WState := outer_loop env_c4 cfg_c4 10 (worker_start env_c4)

/-- Stub environment for the C5 counterexample: episodes end at thread
times 2 and 5, so segment boundaries fall on global steps 3 and 6, neither
a multiple of the save interval 4 that the run crosses. -/
def env_c5 : WorkerParams :=
  { env := fun t => (1, t == 2 || t == 5), sampler := fun _ t => t,
    nextState := fun s => s + 1, initState := fun e => e }

/-- Configuration for the C5 counterexample: save interval 4, global
budget 5. -/
def cfg_c5 : Config := { TH := 5, GMAX := 5, SAVE := 4 }

/-- The C5 counterexample run. -/
def w_c5 : WState := outer_loop env_c5 cfg_c5 10 (worker_start env_c5)

/-- Stub worker for the C5 witness: never terminal. -/
def env_c5w : WorkerParams :=
  { env := fun _ => (1, false), sampler := fun _ _ => 0,
    nextState := fun s => s, initState := fun e => e }

/-- Configuration for the C5 witness: the first segment boundary lands
exactly on the save interval. -/
def cfg_c5w : Config := { TH := 5, GMAX := 5, SAVE := 5 }

/-- Spec-side trace invariant of one worker: step records are indexed by
the thread-local time, resampling happens exactly on `ACTION_INTERVAL`
boundaries of that clock, non-resampled steps repeat the previous step's
action, and `repeated_action` remembers the last action taken. -/
def TraceInv (s : LoopState) (steps : List StepRec) : Prop :=
  s.t = steps.length ∧
  (∀ i, i < steps.length → (steps.getD i noStep).t = i ∧
    ((steps.getD i noStep).resampled = true ↔ i % ACTION_INTERVAL = 0)) ∧
  (∀ i, i + 1 < steps.length → (steps.getD (i + 1) noStep).resampled = false →
    (steps.getD (i + 1) noStep).action = (steps.getD i noStep).action) ∧
  (steps ≠ [] → s.repeated_action = (steps.getD (steps.length - 1) noStep).action)

lemma getLastD_cons_eq (a d : α) (l : List α) : (a :: l).getLastD d = l.getLastD a := by
  cases l <;> rfl

lemma headD_reverse (l : List α) (d : α) : l.reverse.headD d = l.getLastD d := by
  induction l generalizing d with
  | nil => rfl
  | cons a l ih =>
    rw [List.reverse_cons, getLastD_cons_eq]
    cases h : l.reverse with
    | nil =>
      have : l = [] := by
        have := congrArg List.reverse h
        simpa using this
      subst this
      rfl
    | cons b t =>
      have ih2 := ih a
      rw [h] at ih2
      exact ih2

lemma returns_go_append (l : List ℚ) (x r : ℚ) :
    returns_go r (l ++ [x]) = returns_go r l ++ [x + GAMMA * (returns_go r l).getLastD r] := by
  induction l generalizing r with
  | nil => simp [returns_go, List.getLastD]
  | cons y l ih =>
    have h1 : returns_go r ((y :: l) ++ [x]) =
        (y + GAMMA * r) :: returns_go (y + GAMMA * r) (l ++ [x]) := rfl
    have h2 : returns_go r (y :: l) = (y + GAMMA * r) :: returns_go (y + GAMMA * r) l := rfl
    rw [h1, ih, h2, getLastD_cons_eq]
    rfl

lemma agent_run_returns_cons (terminal : Bool) (v x : ℚ) (xs : List ℚ) :
    agent_run_returns terminal v (x :: xs) =
      (x + GAMMA * ((agent_run_returns terminal v xs).headD (run_bootstrap terminal v))) ::
        agent_run_returns terminal v xs := by
  unfold agent_run_returns
  rw [List.reverse_cons, returns_go_append, List.reverse_append, headD_reverse]
  rfl

lemma agent_run_returns_eq_rec (terminal : Bool) (v : ℚ) (rewards : List ℚ) :
    agent_run_returns terminal v rewards = returns_rec (run_bootstrap terminal v) rewards := by
  induction rewards with
  | nil => rfl
  | cons x xs ih => rw [agent_run_returns_cons, ih, returns_rec]

lemma returns_rec_length (b : ℚ) (l : List ℚ) : (returns_rec b l).length = l.length := by
  induction l with
  | nil => rfl
  | cons x xs ih => simp [returns_rec, ih]

lemma returns_rec_last (b : ℚ) (l : List ℚ) (h : l ≠ []) :
    (returns_rec b l).getD (l.length - 1) 0 = l.getD (l.length - 1) 0 + GAMMA * b := by
  induction l with
  | nil => exact absurd rfl h
  | cons x xs ih =>
    cases xs with
    | nil =>
      show (returns_rec b [x]).getD 0 0 = ([x].getD 0 0 : ℚ) + GAMMA * b
      rfl
    | cons y t =>
      have hne : (y :: t) ≠ ([] : List ℚ) := by simp
      have hrec : returns_rec b (x :: y :: t) =
          (x + GAMMA * (returns_rec b (y :: t)).headD b) :: returns_rec b (y :: t) := rfl
      have hlen : (x :: y :: t).length - 1 = ((y :: t).length - 1) + 1 := by simp
      rw [hlen, hrec]
      simp only [List.getD_cons_succ]
      exact ih hne

lemma headD_eq_getD_zero (l : List α) (d d2 : α) (h : l ≠ []) : l.headD d = l.getD 0 d2 := by
  cases l with
  | nil => exact absurd rfl h
  | cons x xs => rfl

lemma returns_rec_step (b : ℚ) (l : List ℚ) :
    ∀ i, i + 1 < l.length →
      (returns_rec b l).getD i 0 = l.getD i 0 + GAMMA * (returns_rec b l).getD (i + 1) 0 := by
  induction l with
  | nil => intro i hi; simp at hi
  | cons x xs ih =>
    intro i hi
    have hrec : returns_rec b (x :: xs) =
        (x + GAMMA * (returns_rec b xs).headD b) :: returns_rec b xs := rfl
    cases i with
    | zero =>
      have hxs : xs ≠ [] := by
        cases xs with
        | nil => simp at hi
        | cons y t => simp
      have hne2 : returns_rec b xs ≠ [] := by
        intro hnil
        have hlenx := returns_rec_length b xs
        rw [hnil] at hlenx
        cases xs with
        | nil => exact hxs rfl
        | cons y t => simp at hlenx
      rw [hrec]
      simp only [List.getD_cons_zero, List.getD_cons_succ]
      rw [headD_eq_getD_zero _ b 0 hne2]
    | succ j =>
      rw [hrec]
      simp only [List.getD_cons_succ]
      exact ih j (by simpa using hi)

lemma sum_map_sub_epsneg (l : List ℚ) :
    (l.map (fun p => p - epsneg)).sum = l.sum - l.length * epsneg := by
  induction l with
  | nil => simp
  | cons x xs ih =>
    simp only [List.map_cons, List.sum_cons, ih, List.length_cons]
    push_cast
    ring

lemma dropLast_map_sub_epsneg (l : List ℚ) :
    (l.map (fun p => p - epsneg)).dropLast = l.dropLast.map (fun p => p - epsneg) := by
  induction l with
  | nil => rfl
  | cons x xs ih =>
    cases xs with
    | nil => rfl
    | cons y t =>
      simp only [List.map_cons, List.dropLast_cons₂] at ih ⊢
      exact congrArg (List.cons _) ih

lemma collect_loop_succ (P : WorkerParams) (cfg : Config) (ts fuel : ℕ) (a : SegState) :
    collect_loop P cfg ts (fuel + 1) a =
      if a.s.terminal || (a.s.t - ts == cfg.TH) then a
      else collect_loop P cfg ts fuel (collect_step P cfg a) := rfl

lemma outer_loop_succ (P : WorkerParams) (cfg : Config) (fuel : ℕ) (w : WState) :
    outer_loop P cfg (fuel + 1) w =
      if w.s.global_t < cfg.GMAX then outer_loop P cfg fuel (outer_body P cfg w) else w := rfl

lemma collect_step_fst_eq_snd (sm : ℕ → ℕ → ℕ) (st rep t : ℕ) :
    (agent_get_action sm st rep t).1 = (agent_get_action sm st rep t).2 := by
  unfold agent_get_action
  split_ifs <;> rfl

lemma collect_loop_counts (P : WorkerParams) (cfg : Config) (ts : ℕ) :
    ∀ fuel (a : SegState), ∃ k, k ≤ fuel ∧
      (collect_loop P cfg ts fuel a).s.t = a.s.t + k ∧
      (collect_loop P cfg ts fuel a).s.global_t = a.s.global_t + k ∧
      (collect_loop P cfg ts fuel a).state_batch.length = a.state_batch.length + k ∧
      (collect_loop P cfg ts fuel a).action_batch.length = a.action_batch.length + k ∧
      (collect_loop P cfg ts fuel a).reward_batch.length = a.reward_batch.length + k ∧
      (collect_loop P cfg ts fuel a).steps.length = a.steps.length + k := by
  intro fuel
  induction fuel with
  | zero => intro a; exact ⟨0, by simp [collect_loop]⟩
  | succ n ih =>
    intro a
    rw [collect_loop_succ]
    split_ifs with h
    · exact ⟨0, by simp⟩
    · obtain ⟨k, hk, h1, h2, h3, h4, h5, h6⟩ := ih (collect_step P cfg a)
      refine ⟨k + 1, by omega, ?_, ?_, ?_, ?_, ?_, ?_⟩
      · rw [h1]; simp [collect_step]; omega
      · rw [h2]; simp [collect_step]; omega
      · rw [h3]; simp [collect_step]; omega
      · rw [h4]; simp [collect_step]; omega
      · rw [h5]; simp [collect_step]; omega
      · rw [h6]; simp [collect_step]; omega

lemma collect_loop_global_ge (P : WorkerParams) (cfg : Config) (ts fuel : ℕ) (a : SegState) :
    a.s.global_t ≤ (collect_loop P cfg ts fuel a).s.global_t := by
  obtain ⟨k, _, _, h2, _⟩ := collect_loop_counts P cfg ts fuel a
  omega

lemma collect_loop_global_le (P : WorkerParams) (cfg : Config) (ts fuel : ℕ) (a : SegState) :
    (collect_loop P cfg ts fuel a).s.global_t ≤ a.s.global_t + fuel := by
  obtain ⟨k, hk, _, h2, _⟩ := collect_loop_counts P cfg ts fuel a
  omega

lemma collect_loop_progress (P : WorkerParams) (cfg : Config) (ts fuel : ℕ) (a : SegState)
    (hterm : a.s.terminal = false) (hts : a.s.t = ts) (hTH : 1 ≤ cfg.TH) (hfuel : 1 ≤ fuel) :
    a.s.global_t + 1 ≤ (collect_loop P cfg ts fuel a).s.global_t := by
  cases fuel with
  | zero => omega
  | succ n =>
    rw [collect_loop_succ]
    have hcond : (a.s.terminal || (a.s.t - ts == cfg.TH)) = false := by
      rw [hterm, hts, Nat.sub_self]
      simp only [Bool.false_or, beq_eq_false_iff_ne]
      omega
    rw [hcond]
    simp only [Bool.false_eq_true, if_false]
    have := collect_loop_global_ge P cfg ts n (collect_step P cfg a)
    have hstep : (collect_step P cfg a).s.global_t = a.s.global_t + 1 := rfl
    omega

lemma outer_body_terminal_false (P : WorkerParams) (cfg : Config) (w : WState) :
    (outer_body P cfg w).s.terminal = false := by
  simp only [outer_body]
  split_ifs with h
  · rfl
  · simpa using h

lemma outer_body_global_eq (P : WorkerParams) (cfg : Config) (w : WState) :
    (outer_body P cfg w).s.global_t =
      (collect_loop P cfg w.s.t cfg.TH
        { s := w.s, state_batch := [], action_batch := [], reward_batch := [],
          steps := w.steps }).s.global_t := by
  simp only [outer_body]
  split_ifs with h
  · rfl
  · rfl

lemma outer_body_global_le (P : WorkerParams) (cfg : Config) (w : WState) :
    (outer_body P cfg w).s.global_t ≤ w.s.global_t + cfg.TH := by
  rw [outer_body_global_eq]
  exact collect_loop_global_le P cfg w.s.t cfg.TH _

lemma outer_body_progress (P : WorkerParams) (cfg : Config) (w : WState)
    (hterm : w.s.terminal = false) (hTH : 1 ≤ cfg.TH) :
    w.s.global_t + 1 ≤ (outer_body P cfg w).s.global_t := by
  rw [outer_body_global_eq]
  exact collect_loop_progress P cfg w.s.t cfg.TH
    { s := w.s, state_batch := [], action_batch := [], reward_batch := [], steps := w.steps }
    hterm rfl hTH hTH

lemma outer_loop_reaches (P : WorkerParams) (cfg : Config) (hTH : 1 ≤ cfg.TH) :
    ∀ fuel (w : WState), w.s.terminal = false → cfg.GMAX ≤ w.s.global_t + fuel →
      cfg.GMAX ≤ (outer_loop P cfg fuel w).s.global_t := by
  intro fuel
  induction fuel with
  | zero => intro w _ h; simpa [outer_loop] using h
  | succ n ih =>
    intro w hterm h
    rw [outer_loop_succ]
    split_ifs with hlt
    · exact ih (outer_body P cfg w) (outer_body_terminal_false P cfg w)
        (by have := outer_body_progress P cfg w hterm hTH; omega)
    · omega

lemma outer_loop_bounded (P : WorkerParams) (cfg : Config) :
    ∀ fuel (w : WState), w.s.global_t < cfg.GMAX + cfg.TH →
      (outer_loop P cfg fuel w).s.global_t < cfg.GMAX + cfg.TH := by
  intro fuel
  induction fuel with
  | zero => intro w h; simpa [outer_loop] using h
  | succ n ih =>
    intro w h
    rw [outer_loop_succ]
    split_ifs with hlt
    · exact ih (outer_body P cfg w) (by have := outer_body_global_le P cfg w; omega)
    · exact h

lemma getD_mem_of_lt (l : List α) (d : α) (i : ℕ) (h : i < l.length) : l.getD i d ∈ l := by
  induction l generalizing i with
  | nil => simp at h
  | cons x xs ih =>
    cases i with
    | zero => simp [List.getD_cons_zero]
    | succ j =>
      rw [List.getD_cons_succ]
      exact List.mem_cons_of_mem _ (ih j (by simpa using h))

lemma outer_body_updates (P : WorkerParams) (cfg : Config) (w : WState)
    (hterm : w.s.terminal = false) (hTH : 1 ≤ cfg.TH) :
    ∀ u ∈ (outer_body P cfg w).updates, u ∈ w.updates ∨
      (u.states.length = u.actions.length ∧ u.actions.length = u.rewards.length ∧
        1 ≤ u.states.length ∧ u.states.length ≤ cfg.TH) := by
  intro u hu
  have heq : (outer_body P cfg w).updates =
      w.updates ++ [UpdateRec.mk
        (collect_loop P cfg w.s.t cfg.TH (SegState.mk w.s [] [] [] w.steps)).state_batch
        (collect_loop P cfg w.s.t cfg.TH (SegState.mk w.s [] [] [] w.steps)).action_batch
        (collect_loop P cfg w.s.t cfg.TH (SegState.mk w.s [] [] [] w.steps)).reward_batch
        (collect_loop P cfg w.s.t cfg.TH (SegState.mk w.s [] [] [] w.steps)).s.terminal
        (collect_loop P cfg w.s.t cfg.TH (SegState.mk w.s [] [] [] w.steps)).s.state] := rfl
  rw [heq, List.mem_append, List.mem_singleton] at hu
  rcases hu with h | h
  · exact Or.inl h
  · right
    subst h
    obtain ⟨k, hk, h1, h2, h3, h4, h5, h6⟩ := collect_loop_counts P cfg w.s.t cfg.TH
      (SegState.mk w.s [] [] [] w.steps)
    have hprog := collect_loop_progress P cfg w.s.t cfg.TH
      (SegState.mk w.s [] [] [] w.steps) hterm rfl hTH hTH
    simp only [List.length_nil] at h3 h4 h5
    dsimp only
    refine ⟨?_, ?_, ?_, ?_⟩ <;> omega

lemma outer_loop_updates (P : WorkerParams) (cfg : Config) (hTH : 1 ≤ cfg.TH) :
    ∀ fuel (w : WState), w.s.terminal = false →
      (∀ u ∈ w.updates, u.states.length = u.actions.length ∧
        u.actions.length = u.rewards.length ∧
        1 ≤ u.states.length ∧ u.states.length ≤ cfg.TH) →
      ∀ u ∈ (outer_loop P cfg fuel w).updates,
        u.states.length = u.actions.length ∧ u.actions.length = u.rewards.length ∧
        1 ≤ u.states.length ∧ u.states.length ≤ cfg.TH := by
  intro fuel
  induction fuel with
  | zero => intro w _ hw u hu; exact hw u hu
  | succ n ih =>
    intro w hterm hw
    rw [outer_loop_succ]
    split_ifs with hlt
    · refine ih (outer_body P cfg w) (outer_body_terminal_false P cfg w) ?_
      intro u hu
      rcases outer_body_updates P cfg w hterm hTH u hu with h | h
      · exact hw u h
      · exact h
    · exact hw

lemma outer_body_saves (P : WorkerParams) (cfg : Config) (w : WState) :
    ∀ g ∈ (outer_body P cfg w).saves, g ∈ w.saves ∨ g % cfg.SAVE = 0 := by
  intro g hg
  simp only [outer_body] at hg
  split_ifs at hg with h
  · rw [List.mem_append, List.mem_singleton] at hg
    rcases hg with h2 | h2
    · exact Or.inl h2
    · subst h2
      exact Or.inr (by simpa using h)
  · exact Or.inl hg

lemma outer_loop_saves (P : WorkerParams) (cfg : Config) :
    ∀ fuel (w : WState), (∀ g ∈ w.saves, g % cfg.SAVE = 0) →
      ∀ g ∈ (outer_loop P cfg fuel w).saves, g % cfg.SAVE = 0 := by
  intro fuel
  induction fuel with
  | zero => intro w hw; exact hw
  | succ n ih =>
    intro w hw
    rw [outer_loop_succ]
    split_ifs with hlt
    · refine ih (outer_body P cfg w) ?_
      intro g hg
      rcases outer_body_saves P cfg w g hg with h | h
      · exact hw g h
      · exact h
    · exact hw

lemma getD_concat_lt (l : List α) (a d : α) (i : ℕ) (h : i < l.length) :
    (l ++ [a]).getD i d = l.getD i d :=
  List.getD_append l [a] d i h

lemma getD_concat_self (l : List α) (a d : α) :
    (l ++ [a]).getD l.length d = a := by
  rw [List.getD_append_right l [a] d l.length (le_refl _), Nat.sub_self]
  rfl

lemma trace_inv_congr (s s2 : LoopState) (l : List StepRec) (h : TraceInv s l)
    (ht : s2.t = s.t) (hr : s2.repeated_action = s.repeated_action) : TraceInv s2 l := by
  obtain ⟨h1, h2, h3, h4⟩ := h
  exact ⟨by rw [ht, h1], h2, h3, fun hne => by rw [hr]; exact h4 hne⟩

lemma collect_step_trace (P : WorkerParams) (cfg : Config) (a : SegState)
    (hinv : TraceInv a.s a.steps) :
    TraceInv (collect_step P cfg a).s (collect_step P cfg a).steps := by
  obtain ⟨h1, h2, h3, h4⟩ := hinv
  have hfe := collect_step_fst_eq_snd P.sampler a.s.state a.s.repeated_action a.s.t
  have hsteps : (collect_step P cfg a).steps = a.steps ++ [StepRec.mk a.s.t a.s.epStep
      (a.s.t % ACTION_INTERVAL == 0)
      (agent_get_action P.sampler a.s.state a.s.repeated_action a.s.t).1] := rfl
  have ht : (collect_step P cfg a).s.t = a.s.t + 1 := rfl
  refine ⟨?_, ?_, ?_, ?_⟩
  · rw [hsteps, ht, h1]
    simp
  · intro i hi
    rw [hsteps] at hi
    simp only [List.length_append, List.length_cons, List.length_nil] at hi
    rcases Nat.lt_or_ge i a.steps.length with hlt | hge
    · rw [hsteps, getD_concat_lt _ _ _ _ hlt]
      exact h2 i hlt
    · have hieq : i = a.steps.length := by omega
      subst hieq
      rw [hsteps, getD_concat_self]
      refine ⟨h1, ?_⟩
      show ((a.s.t % ACTION_INTERVAL == 0) = true) ↔ a.steps.length % ACTION_INTERVAL = 0
      rw [h1]
      simp
  · intro i hi hres
    rw [hsteps] at hi
    simp only [List.length_append, List.length_cons, List.length_nil] at hi
    rcases Nat.lt_or_ge (i + 1) a.steps.length with hlt | hge
    · rw [hsteps, getD_concat_lt _ _ _ _ hlt] at hres ⊢
      rw [getD_concat_lt _ _ _ _ (by omega)]
      exact h3 i hlt hres
    · have hieq : i + 1 = a.steps.length := by omega
      rw [hsteps] at hres ⊢
      rw [hieq] at hres ⊢
      rw [getD_concat_self] at hres ⊢
      rw [getD_concat_lt _ _ _ _ (by omega)]
      have hres2 : (a.s.t % ACTION_INTERVAL == 0) = false := hres
      have hmod : ¬ a.s.t % ACTION_INTERVAL = 0 := by simpa using hres2
      have hact : (agent_get_action P.sampler a.s.state a.s.repeated_action a.s.t).1
          = a.s.repeated_action := by
        unfold agent_get_action
        rw [if_neg hmod]
      show (agent_get_action P.sampler a.s.state a.s.repeated_action a.s.t).1
          = (a.steps.getD i noStep).action
      rw [hact]
      have hne : a.steps ≠ [] := by
        intro hnil
        rw [hnil] at hieq
        simp at hieq
      rw [show i = a.steps.length - 1 from by omega]
      exact h4 hne
  · intro hne
    rw [hsteps]
    have hlen2 : (a.steps ++ [StepRec.mk a.s.t a.s.epStep
        (a.s.t % ACTION_INTERVAL == 0)
        (agent_get_action P.sampler a.s.state a.s.repeated_action a.s.t).1]).length - 1
          = a.steps.length := by simp
    rw [hlen2, getD_concat_self]
    exact hfe.symm

lemma collect_loop_trace (P : WorkerParams) (cfg : Config) (ts : ℕ) :
    ∀ fuel (a : SegState), TraceInv a.s a.steps →
      TraceInv (collect_loop P cfg ts fuel a).s (collect_loop P cfg ts fuel a).steps := by
  intro fuel
  induction fuel with
  | zero => intro a h; exact h
  | succ n ih =>
    intro a h
    rw [collect_loop_succ]
    split_ifs with hc
    · exact h
    · exact ih (collect_step P cfg a) (collect_step_trace P cfg a h)

lemma outer_body_trace (P : WorkerParams) (cfg : Config) (w : WState)
    (h : TraceInv w.s w.steps) :
    TraceInv (outer_body P cfg w).s (outer_body P cfg w).steps := by
  have hc := collect_loop_trace P cfg w.s.t cfg.TH (SegState.mk w.s [] [] [] w.steps) h
  have hsteps : (outer_body P cfg w).steps =
      (collect_loop P cfg w.s.t cfg.TH (SegState.mk w.s [] [] [] w.steps)).steps := rfl
  have ht : (outer_body P cfg w).s.t =
      (collect_loop P cfg w.s.t cfg.TH (SegState.mk w.s [] [] [] w.steps)).s.t := by
    simp only [outer_body]
    split_ifs <;> rfl
  have hr : (outer_body P cfg w).s.repeated_action =
      (collect_loop P cfg w.s.t cfg.TH (SegState.mk w.s [] [] [] w.steps)).s.repeated_action := by
    simp only [outer_body]
    split_ifs <;> rfl
  rw [hsteps]
  exact trace_inv_congr _ _ _ hc ht hr

lemma outer_loop_trace (P : WorkerParams) (cfg : Config) :
    ∀ fuel (w : WState), TraceInv w.s w.steps →
      TraceInv (outer_loop P cfg fuel w).s (outer_loop P cfg fuel w).steps := by
  intro fuel
  induction fuel with
  | zero => intro w h; exact h
  | succ n ih =>
    intro w h
    rw [outer_loop_succ]
    split_ifs with hc
    · exact ih (outer_body P cfg w) (outer_body_trace P cfg w h)
    · exact h

lemma worker_start_trace (P : WorkerParams) :
    TraceInv (worker_start P).s (worker_start P).steps := by
  refine ⟨rfl, ?_, ?_, ?_⟩
  · intro i hi
    simp [worker_start] at hi
  · intro i hi
    simp [worker_start] at hi
  · intro hne
    simp [worker_start] at hne

/-- C1. The return sequence of `Agent.run` satisfies the backward
recurrence: its length equals the reward segment's, the bootstrap is `0` on
terminal segments and the baseline prediction `v` otherwise,
`R_(n-1) = r_(n-1) + GAMMA * b`, `R_i = r_i + GAMMA * R_(i+1)` for
`i < n-1`, and on rewards `[1, 0, 1]` with bootstrap `0` it yields
`[1.9801, 0.99, 1]`. -/
theorem c1_return_recurrence (rewards : List ℚ) (terminal : Bool) (v : ℚ) :
    (agent_run_returns terminal v rewards).length = rewards.length ∧
    run_bootstrap true v = 0 ∧
    run_bootstrap false v = v ∧
    (rewards ≠ [] →
      (agent_run_returns terminal v rewards).getD (rewards.length - 1) 0 =
        rewards.getD (rewards.length - 1) 0 + GAMMA * run_bootstrap terminal v) ∧
    (∀ i, i + 1 < rewards.length →
      (agent_run_returns terminal v rewards).getD i 0 =
        rewards.getD i 0 + GAMMA * (agent_run_returns terminal v rewards).getD (i + 1) 0) ∧
    agent_run_returns true 0 [1, 0, 1] = [19801/10000, 99/100, 1] := by
  rw [agent_run_returns_eq_rec]
  refine ⟨returns_rec_length _ _, rfl, rfl, ?_, ?_, ?_⟩
  · intro h
    exact returns_rec_last _ _ h
  · intro i hi
    exact returns_rec_step _ _ i hi
  · show agent_run_returns true 0 [1, 0, 1] = [19801/10000, 99/100, 1]
    norm_num [agent_run_returns, run_bootstrap, returns_go, GAMMA]

/-- C1, witness. The recurrence theorem applied to the concrete segment
`[1, 0, 1]` with a non-terminal bootstrap `v = 2`. -/
theorem c1_return_recurrence_witness :
    (agent_run_returns false 2 [1, 0, 1]).getD 2 0 =
        ([1, 0, 1] : List ℚ).getD 2 0 + GAMMA * run_bootstrap false 2 ∧
    (agent_run_returns false 2 [1, 0, 1]).getD 0 0 =
        ([1, 0, 1] : List ℚ).getD 0 0 + GAMMA * (agent_run_returns false 2 [1, 0, 1]).getD 1 0 :=
  ⟨by
      have h := (c1_return_recurrence [1, 0, 1] false 2).2.2.2.1 (by simp)
      simpa using h,
    (c1_return_recurrence [1, 0, 1] false 2).2.2.2.2.1 0 (by norm_num)⟩

/-- C2, counterexample. The claim "no operation ever increases the
shared learning_rate" is false: after worker entry (`tinit`) and one
decrement, a second worker's entry assignment raises `learning_rate` back
to `INITIAL_LEARNING_RATE`, strictly above its previous value. -/
theorem c2_counterexample :
    lr_apply lr_step .decr (lr_apply lr_step .tinit INITIAL_LEARNING_RATE)
        < INITIAL_LEARNING_RATE ∧
    lr_apply lr_step .tinit
        (lr_apply lr_step .decr (lr_apply lr_step .tinit INITIAL_LEARNING_RATE)) =
      INITIAL_LEARNING_RATE := by
  constructor
  · show lr_apply lr_step .decr INITIAL_LEARNING_RATE < INITIAL_LEARNING_RATE
    unfold lr_apply lr_step INITIAL_LEARNING_RATE GLOBAL_T_MAX
    norm_num
  · rfl

/-- C2, amended. Every operation keeps the shared learning_rate inside
`[0, INITIAL_LEARNING_RATE]`; a decrement never increases it; and after `n`
consecutive decrements from `INITIAL_LEARNING_RATE` its value is exactly
`max 0 (INITIAL_LEARNING_RATE - n * lr_step)`.  (Monotonicity over the whole
process lifetime fails: the thread-entry assignment of line 181 can
increase it, see the counterexample.) -/
theorem c2_learning_rate_schedule :
    (∀ (op : SharedLrOp) (lr : ℚ), 0 ≤ lr → lr ≤ INITIAL_LEARNING_RATE →
        0 ≤ lr_apply lr_step op lr ∧ lr_apply lr_step op lr ≤ INITIAL_LEARNING_RATE) ∧
    (∀ lr : ℚ, 0 ≤ lr → lr_apply lr_step .decr lr ≤ lr) ∧
    (∀ n : ℕ, lr_after_decrements n = max 0 (INITIAL_LEARNING_RATE - n * lr_step)) := by
  have hstep : (0 : ℚ) < lr_step := by
    unfold lr_step INITIAL_LEARNING_RATE GLOBAL_T_MAX; norm_num
  have hinit : (0 : ℚ) < INITIAL_LEARNING_RATE := by
    unfold INITIAL_LEARNING_RATE; norm_num
  refine ⟨?_, ?_, ?_⟩
  · rintro (_ | _) lr h0 h1
    · exact ⟨le_of_lt hinit, le_refl _⟩
    · simp only [lr_apply]
      split_ifs with h
      · exact ⟨le_refl 0, le_of_lt hinit⟩
      · constructor
        · linarith
        · linarith
  · intro lr h0
    simp only [lr_apply]
    split_ifs with h
    · exact h0
    · linarith
  · intro n
    induction n with
    | zero =>
      simp only [lr_after_decrements, Nat.cast_zero, zero_mul, sub_zero]
      exact (max_eq_right (le_of_lt hinit)).symm
    | succ m ih =>
      simp only [lr_after_decrements, ih, lr_apply]
      rcases le_or_lt (INITIAL_LEARNING_RATE - m * lr_step) 0 with hle | hgt
      · rw [max_eq_left hle]
        have hneg : (0 : ℚ) - lr_step < 0 := by linarith
        rw [if_pos hneg]
        have : INITIAL_LEARNING_RATE - (m + 1 : ℕ) * lr_step ≤ 0 := by
          push_cast
          nlinarith
        rw [max_eq_left this]
      · rw [max_eq_right (le_of_lt hgt)]
        have harith : INITIAL_LEARNING_RATE - m * lr_step - lr_step =
            INITIAL_LEARNING_RATE - (m + 1 : ℕ) * lr_step := by
          push_cast
          ring
        rw [harith]
        rcases lt_or_le (INITIAL_LEARNING_RATE - (m + 1 : ℕ) * lr_step) 0 with hc | hc
        · rw [if_pos hc, max_eq_left (le_of_lt hc)]
        · rw [if_neg (not_lt.mpr hc), max_eq_right hc]

/-- C2, witness for the amended theorem. -/
theorem c2_learning_rate_schedule_witness :
    (0 ≤ lr_apply lr_step .decr (1/2000) ∧
      lr_apply lr_step .decr (1/2000) ≤ INITIAL_LEARNING_RATE) ∧
    lr_apply lr_step .decr (1/2000) ≤ 1/2000 ∧
    lr_after_decrements 3 = max 0 (INITIAL_LEARNING_RATE - 3 * lr_step) :=
  ⟨c2_learning_rate_schedule.1 .decr (1/2000) (by norm_num)
      (by unfold INITIAL_LEARNING_RATE; norm_num),
    c2_learning_rate_schedule.2.1 (1/2000) (by norm_num),
    by simpa using c2_learning_rate_schedule.2.2 3⟩

/-- C3. The first statements of `actor_learner_thread` assign the
process-shared globals `global_t := 0`,
`learning_rate := INITIAL_LEARNING_RATE`, `global_episode := 0`,
unconditionally and regardless of the values accumulated so far, so any
worker entering later overwrites the shared training progress of earlier
workers; the per-worker delay of line 191 is `3 * thread_id` seconds. -/
theorem c3_thread_init_overwrites (g : Globals) (i : ℕ) :
    thread_init g =
      { global_t := 0, learning_rate := INITIAL_LEARNING_RATE, global_episode := 0 } ∧
    thread_init g = thread_init { global_t := 0, learning_rate := 0, global_episode := 0 } ∧
    thread_delay_seconds i = 3 * i :=
  ⟨rfl, rfl, rfl⟩

/-- C4, counterexample. The claim resamples "when the within-episode
step index modulo ACTION_INTERVAL equals 0".  False on the code: at the
first step of the second episode (within-episode index 0, thread time
t = 5) the action is NOT resampled — line 109 tests the thread-local `t`,
which is never reset between episodes — and the action of the previous
step is repeated instead. -/
theorem c4_counterexample :
    (w_c4.steps.getD 5 noStep).epStep = 0 ∧
    (w_c4.steps.getD 5 noStep).epStep % ACTION_INTERVAL = 0 ∧
    (w_c4.steps.getD 5 noStep).resampled = false ∧
    (w_c4.steps.getD 5 noStep).t = 5 ∧
    (w_c4.steps.getD 4 noStep).action = 104 ∧
    (w_c4.steps.getD 5 noStep).action = 104 := by
  refine ⟨by decide, by decide, by decide, by decide, by decide, by decide⟩

/-- C4, amended. An action is resampled exactly when the THREAD-LOCAL
step counter `t` — which indexes every environment step of the worker's
lifetime and is never reset at episode boundaries — satisfies
`t % ACTION_INTERVAL == 0` (line 109); at every other step the previously
sampled action is repeated unchanged.  (The claim's "within-episode step
index" is wrong whenever an episode ends off an ACTION_INTERVAL boundary,
see the counterexample.) -/
theorem c4_resample_on_thread_clock (P : WorkerParams) (cfg : Config) (fuel : ℕ) :
    (∀ i, i < (outer_loop P cfg fuel (worker_start P)).steps.length →
      ((outer_loop P cfg fuel (worker_start P)).steps.getD i noStep).t = i ∧
      (((outer_loop P cfg fuel (worker_start P)).steps.getD i noStep).resampled = true ↔
        i % ACTION_INTERVAL = 0)) ∧
    (∀ i, i + 1 < (outer_loop P cfg fuel (worker_start P)).steps.length →
      ((outer_loop P cfg fuel (worker_start P)).steps.getD (i + 1) noStep).resampled = false →
      ((outer_loop P cfg fuel (worker_start P)).steps.getD (i + 1) noStep).action =
        ((outer_loop P cfg fuel (worker_start P)).steps.getD i noStep).action) := by
  have h := outer_loop_trace P cfg fuel (worker_start P) (worker_start_trace P)
  exact ⟨h.2.1, h.2.2.1⟩

/-- C4, amended, witness. The amended statement checked on the C8
scenario run: step 0 resamples, step 1 does not and repeats step 0's
action. -/
theorem c4_resample_on_thread_clock_witness :
    ((w_c8.steps.getD 0 noStep).resampled = true ↔ 0 % ACTION_INTERVAL = 0) ∧
    (w_c8.steps.getD 1 noStep).action = (w_c8.steps.getD 0 noStep).action :=
  ⟨((c4_resample_on_thread_clock env_c8 cfg_c8 10).1 0 (by decide)).2,
    (c4_resample_on_thread_clock env_c8 cfg_c8 10).2 0 (by decide) (by decide)⟩

/-- C5, counterexample. The claim promises at least one save per
crossed multiple of SAVE_INTERVAL.  False on the code: the save check of
line 239 runs only once per collected segment, so this run starts below
the save interval, finishes above it (the global counter crosses the
multiple 4 mid-segment), and performs no save at all. -/
theorem c5_counterexample :
    (worker_start env_c5).s.global_t < cfg_c5.SAVE ∧
    cfg_c5.SAVE ≤ w_c5.s.global_t ∧
    w_c5.s.global_t = 6 ∧
    w_c5.saves = [] := by
  refine ⟨by decide, by decide, by decide, by decide⟩

/-- C5, amended. The checkpoint save is invoked with the current
global step exactly when the post-segment check of line 239 finds
`global_t % SAVE_INTERVAL == 0`: every saved value is a multiple of
SAVE_INTERVAL.  Because the check runs once per collected segment rather
than after each increment, a crossed multiple can be missed entirely (see
the counterexample); there is no at-least-once guarantee. -/
theorem c5_saves_are_multiples (P : WorkerParams) (cfg : Config) (fuel : ℕ) :
    ∀ g ∈ (outer_loop P cfg fuel (worker_start P)).saves, g % cfg.SAVE = 0 := by
  refine outer_loop_saves P cfg fuel (worker_start P) ?_
  intro g hg
  simp [worker_start] at hg

/-- C5, witness. In the concrete never-terminal run the boundary hits
global step 5, a save fires there, and the theorem confirms it is a
multiple of the save interval. -/
theorem c5_saves_are_multiples_witness :
    (5 : ℕ) ∈ (outer_loop env_c5w cfg_c5w 5 (worker_start env_c5w)).saves ∧
    (5 : ℕ) % cfg_c5w.SAVE = 0 :=
  ⟨by decide, c5_saves_are_multiples env_c5w cfg_c5w 5 5 (by decide)⟩

/-- C6. With at least one step per segment allowed (THREAD_T_MAX ≥ 1)
and enough fuel, the worker loop terminates: the final global step count
satisfies GLOBAL_T_MAX ≤ global_t (the threshold was observed false at a
collecting-loop boundary) and global_t < GLOBAL_T_MAX + THREAD_T_MAX, so
the worker runs at most THREAD_T_MAX extra steps in its final segment. -/
theorem c6_termination_bound (P : WorkerParams) (cfg : Config) (fuel : ℕ)
    (hTH : 1 ≤ cfg.TH) (hfuel : cfg.GMAX ≤ fuel) :
    cfg.GMAX ≤ (outer_loop P cfg fuel (worker_start P)).s.global_t ∧
    (outer_loop P cfg fuel (worker_start P)).s.global_t < cfg.GMAX + cfg.TH := by
  constructor
  · exact outer_loop_reaches P cfg hTH fuel (worker_start P) rfl (by
      have : (worker_start P).s.global_t = 0 := rfl
      omega)
  · exact outer_loop_bounded P cfg fuel (worker_start P) (by
      have : (worker_start P).s.global_t = 0 := rfl
      omega)

/-- C6, witness. The bound evaluated on the concrete C8 scenario run:
budget 6, segment cap 5, final global step in [6, 11). -/
theorem c6_termination_bound_witness :
    cfg_c8.GMAX ≤ w_c8.s.global_t ∧ w_c8.s.global_t < cfg_c8.GMAX + cfg_c8.TH :=
  c6_termination_bound env_c8 cfg_c8 10 (by decide) (by decide)

/-- C7. Every rollout segment handed to `Agent.run` consists of three
parallel batches of equal length, with length at least 1 and at most
THREAD_T_MAX; the batches are rebuilt from empty lists for each segment
(lines 203-205), so each update sees exactly its own segment. -/
theorem c7_segment_invariant (P : WorkerParams) (cfg : Config) (fuel : ℕ)
    (hTH : 1 ≤ cfg.TH) :
    ∀ u ∈ (outer_loop P cfg fuel (worker_start P)).updates,
      u.states.length = u.actions.length ∧ u.actions.length = u.rewards.length ∧
      1 ≤ u.states.length ∧ u.states.length ≤ cfg.TH := by
  refine outer_loop_updates P cfg hTH fuel (worker_start P) rfl ?_
  intro u hu
  simp [worker_start] at hu

/-- C7, witness. The invariant checked on the first update record of
the concrete C8 scenario run. -/
theorem c7_segment_invariant_witness :
    (w_c8.updates.getD 0 noUpdate).states.length =
        (w_c8.updates.getD 0 noUpdate).actions.length ∧
    (w_c8.updates.getD 0 noUpdate).actions.length =
        (w_c8.updates.getD 0 noUpdate).rewards.length ∧
    1 ≤ (w_c8.updates.getD 0 noUpdate).states.length ∧
    (w_c8.updates.getD 0 noUpdate).states.length ≤ cfg_c8.TH :=
  c7_segment_invariant env_c8 cfg_c8 10 (by decide) (w_c8.updates.getD 0 noUpdate)
    (getD_mem_of_lt _ _ _ (by decide))

/-- C8. With THREAD_T_MAX = 5 and a stub environment returning
terminal = false for five steps and terminal = true on the sixth, the
worker makes exactly 2 update calls for the episode: a 5-step non-terminal
segment and then a 1-step terminal segment whose bootstrap is 0 whatever
the baseline predicts. -/
theorem c8_two_updates :
    w_c8.updates.length = 2 ∧
    (w_c8.updates.getD 0 noUpdate).states.length = 5 ∧
    (w_c8.updates.getD 0 noUpdate).terminal = false ∧
    (w_c8.updates.getD 1 noUpdate).states.length = 1 ∧
    (w_c8.updates.getD 1 noUpdate).terminal = true ∧
    ∀ v : ℚ, run_bootstrap (w_c8.updates.getD 1 noUpdate).terminal v = 0 := by
  refine ⟨by decide, by decide, by decide, by decide, by decide, ?_⟩
  intro v
  have h : (w_c8.updates.getD 1 noUpdate).terminal = true := by decide
  rw [h]
  rfl

/-- C9. Before sampling, the predicted distribution's mass is nudged
down: every component loses `epsneg`, so the total mass drops by
`length * epsneg` (strictly, for a nonempty vector); and whenever the
floating-point overshoot of the head mass is within the corrected range,
`get_action` returns an action and never an error. -/
theorem c9_epsilon_guard (probs : List ℚ)
    (hlen : 1 ≤ probs.length)
    (hmass : probs.dropLast.sum ≤ 1 + probs.dropLast.length * epsneg) :
    (adjust_probs probs).sum = probs.sum - probs.length * epsneg ∧
    (adjust_probs probs).sum < probs.sum ∧
    ∀ u : ℚ, ∀ rep t : ℕ, ∃ a, get_action_model probs u rep t = Except.ok a := by
  have heps : (0 : ℚ) < epsneg := by unfold epsneg; norm_num
  refine ⟨sum_map_sub_epsneg probs, ?_, ?_⟩
  · unfold adjust_probs
    rw [sum_map_sub_epsneg]
    have : (0 : ℚ) < probs.length * epsneg := by
      apply mul_pos _ heps
      exact_mod_cast Nat.lt_of_lt_of_le Nat.zero_lt_one hlen
    linarith
  · intro u rep t
    unfold get_action_model
    split_ifs with ht
    · refine ⟨pick_index (adjust_probs probs) u, ?_⟩
      unfold get_action_sample multinomial_draw
      rw [if_neg]
      push_neg
      unfold adjust_probs
      rw [dropLast_map_sub_epsneg, sum_map_sub_epsneg]
      linarith
    · exact ⟨rep, rfl⟩

/-- C9, witness. A concrete distribution whose total mass overshoots 1
(`3/5 + 1/2 = 11/10`): the adjusted mass is strictly smaller and the
sampler returns an action rather than raising. -/
theorem c9_epsilon_guard_witness :
    (adjust_probs [3/5, 1/2]).sum < ([3/5, 1/2] : List ℚ).sum ∧
    ∃ a, get_action_model [3/5, 1/2] (1/4) 0 0 = Except.ok a :=
  ⟨(c9_epsilon_guard [3/5, 1/2] (by norm_num)
      (by norm_num [epsneg])).2.1,
    (c9_epsilon_guard [3/5, 1/2] (by norm_num)
      (by norm_num [epsneg])).2.2 (1/4) 0 0⟩

/-- C10. For every raw reward `r` returned by the environment, the
stored reward is the clipped value `max (-1) (min 1 r)`; in particular
`5 ↦ 1`, `-3 ↦ -1`, `0.5 ↦ 0.5` (line 216). -/
theorem c10_reward_clipping (r : ℚ) :
    np_clip r (-1) 1 = max (-1) (min 1 r) ∧
    np_clip 5 (-1) 1 = 1 ∧ np_clip (-3) (-1) 1 = -1 ∧ np_clip (1/2) (-1) 1 = 1/2 := by
  refine ⟨?_, by norm_num [np_clip], by norm_num [np_clip], by norm_num [np_clip]⟩
  unfold np_clip
  split_ifs with h1 h2
  · rw [min_eq_right (by linarith), max_eq_left (by linarith)]
  · rw [min_eq_left (by linarith)]
    exact (max_eq_right (by norm_num)).symm
  · rw [min_eq_right (by linarith), max_eq_right (by linarith)]
